import Mathlib

/-!
Verification development for `correciones.py`, a Conway Game-of-Life
weak-scaling benchmark.  The Python source is embedded shallowly:

* a numpy 2-D `uint8` array becomes `Grilla := List (List ℕ)`;
* `np.roll(a, k, axis)` becomes `np_roll0` / `np_roll1`, built from
  `rotList`, with the same index arithmetic (`out[i] = in[(i - k) mod n]`);
* elementwise array addition and the boolean rule expression of
  `JuegoDeLaVida.step` become `zipWith` combinations (`addMat`,
  `apply_rule`);
* `np.array_split(a, n, axis=0)` becomes `array_split`, reproducing
  numpy's section sizes (first `R mod n` bands get `R / n + 1` rows, the
  rest `R / n`) and numpy's failure exactly when `n ≤ 0`;
* `np.random.randint(2, size=(r, c))` is modelled by a caller-supplied
  value stream `rng` reduced mod 2 (numpy draws values in `[0, 2)`), and
  it fails exactly when a requested dimension is negative;
* `time.time()` readings are modelled by a caller-supplied clock
  `clock : ℕ → ℚ`, read in program order (two reads per iteration);
* Python `int` parameters become `ℤ`; `range(pasos)` for negative
  `pasos` is empty, hence the `Int.toNat` iteration counts.
-/

namespace Correciones

abbrev Grilla := List (List ℕ)

/-- Cell accessor with numpy-style defaulting (out of range reads 0). -/
def getCell (g : Grilla) (i j : ℕ) : ℕ := (g.getD i []).getD j 0

/-- `g` is an `R × C` matrix. -/
def IsMat (R C : ℕ) (g : Grilla) : Prop :=
  g.length = R ∧ ∀ row ∈ g, row.length = C

/-- Every cell of `g` is 0 or 1. -/
def cells01 (g : Grilla) : Prop :=
  ∀ row ∈ g, ∀ c ∈ row, c = 0 ∨ c = 1

/-- Wrap an integer index into `[0, n)` (numpy toroidal indexing). -/
def idx (n : ℕ) (z : ℤ) : ℕ := (z % (n : ℤ)).toNat

/-- Rotate a list right by `k` (`out[i] = in[(i - k) mod n]`), the 1-D
core of `np.roll`. -/
def rotList {α : Type} (k : ℤ) (d : α) (l : List α) : List α :=
  (List.range l.length).map (fun (i : ℕ) => l.getD (idx l.length ((i : ℤ) - k)) d)

/-- `np.roll(g, k, 0)`: rotate the rows. -/
def np_roll0 (g : Grilla) (k : ℤ) : Grilla := rotList k [] g

/-- `np.roll(g, k, 1)`: rotate inside each row. -/
def np_roll1 (g : Grilla) (k : ℤ) : Grilla := g.map (rotList k 0)

/-- Elementwise combination of two equally-shaped matrices. -/
def zipMat (f : ℕ → ℕ → ℕ) (a b : Grilla) : Grilla :=
  List.zipWith (fun r s => List.zipWith f r s) a b

/-- numpy elementwise `+` on two equally-shaped matrices. -/
def addMat (a b : Grilla) : Grilla := zipMat (· + ·) a b

/-- `JuegoDeLaVida.contar_vecinos`: the eight shifted copies of the grid,
summed in the source's order (upper-left, up, upper-right, left, right,
lower-left, down, lower-right). -/
def contar_vecinos (g : Grilla) : Grilla :=
  addMat (addMat (addMat (addMat (addMat (addMat (addMat
    (np_roll1 (np_roll0 g 1) 1)
    (np_roll1 (np_roll0 g 1) 0))
    (np_roll1 (np_roll0 g 1) (-1)))
    (np_roll1 (np_roll0 g 0) 1))
    (np_roll1 (np_roll0 g 0) (-1)))
    (np_roll1 (np_roll0 g (-1)) 1))
    (np_roll1 (np_roll0 g (-1)) 0))
    (np_roll1 (np_roll0 g (-1)) (-1))

/-- The rule expression `((vecinos == 3) | ((grilla == 1) & (vecinos == 2))).astype(uint8)`. -/
def apply_rule (g v : Grilla) : Grilla :=
  zipMat (fun c n => if n = 3 ∨ (c = 1 ∧ n = 2) then 1 else 0) g v

/-- `JuegoDeLaVida.step` as a function on the grid. -/
def step (g : Grilla) : Grilla := apply_rule g (contar_vecinos g)

/-- The specification's toroidal neighbour count: the sum of the eight
cells at row `(i + di) mod R`, column `(j + dj) mod C`, `(di, dj) ≠ (0, 0)`. -/
def vecinosToroidal (g : Grilla) (R C i j : ℕ) : ℕ :=
  getCell g (idx R ((i : ℤ) - 1)) (idx C ((j : ℤ) - 1)) +
  getCell g (idx R ((i : ℤ) - 1)) j +
  getCell g (idx R ((i : ℤ) - 1)) (idx C ((j : ℤ) + 1)) +
  getCell g i (idx C ((j : ℤ) - 1)) +
  getCell g i (idx C ((j : ℤ) + 1)) +
  getCell g (idx R ((i : ℤ) + 1)) (idx C ((j : ℤ) - 1)) +
  getCell g (idx R ((i : ℤ) + 1)) j +
  getCell g (idx R ((i : ℤ) + 1)) (idx C ((j : ℤ) + 1))

/-- numpy `array_split` section sizes: the first `R mod n` sections get
`R / n + 1` rows, the remaining ones `R / n`. -/
def splitSizes (R n : ℕ) : List ℕ :=
  (List.range n).map (fun (i : ℕ) => if i < R % n then R / n + 1 else R / n)

/-- Cut `rows` into consecutive chunks of the given sizes. -/
def takeBands : List ℕ → Grilla → List Grilla
  | [], _ => []
  | s :: ss, rows => rows.take s :: takeBands ss (rows.drop s)

def splitErrMsg : String := "number sections must be larger than 0"

/-- `np.array_split(g, n, axis=0)`: errors exactly when `n ≤ 0`, otherwise
returns the `n` near-equal row bands (possibly empty ones when `n`
exceeds the row count). -/
def array_split (g : Grilla) (n : ℤ) : Except String (List Grilla) :=
  if n ≤ 0 then Except.error splitErrMsg
  else Except.ok (takeBands (splitSizes g.length n.toNat) g)

def negDimMsg : String := "negative dimensions are not allowed"

/-- `np.random.randint(2, size=(r, c), dtype=uint8)` with the random
stream supplied as `rng`; numpy draws values in `[0, 2)`, hence `% 2`. -/
def mkRandGrid (rng : ℕ → ℕ → ℕ) (r c : ℕ) : Grilla :=
  (List.range r).map (fun (i : ℕ) => (List.range c).map (fun (j : ℕ) => rng i j % 2))

structure JuegoDeLaVida where
  filas : ℤ
  columnas : ℤ
  pasos : ℤ
  procesos : ℤ
  grilla : Grilla

/-- `JuegoDeLaVida.__init__`: stores the parameters and draws a random
`filas × columnas` grid of 0/1 cells.  numpy rejects a negative
dimension; a zero dimension succeeds and gives an empty array. -/
def juegoInit (rng : ℕ → ℕ → ℕ) (filas columnas pasos procesos : ℤ) :
    Except String JuegoDeLaVida :=
  if filas < 0 ∨ columnas < 0 then Except.error negDimMsg
  else Except.ok ⟨filas, columnas, pasos, procesos,
    mkRandGrid rng filas.toNat columnas.toNat⟩

/-- `worker(subgrilla, pasos)`: builds a `JuegoDeLaVida` of the
sub-grid's shape (whose freshly drawn random grid is immediately
overwritten by the sub-grid), then iterates the step rule
`range(pasos)`-many times, i.e. `pasos.toNat` times. -/
def worker (rng : ℕ → ℕ → ℕ) (subgrilla : Grilla) (pasos : ℤ) : Grilla :=
  let juego : JuegoDeLaVida :=
    ⟨(subgrilla.length : ℤ), ((subgrilla.headD []).length : ℤ), pasos, 1,
      mkRandGrid rng subgrilla.length (subgrilla.headD []).length⟩
  let juego2 : JuegoDeLaVida :=
    ⟨juego.filas, juego.columnas, juego.pasos, juego.procesos, subgrilla⟩
  step^[pasos.toNat] juego2.grilla

def nanMsg : String := "cannot convert float NaN to integer"

/-- One pass of `escalamiento_debil` over the worker-count list, carrying
the iteration index `k` so that the `k`-th iteration reads the clock at
instants `2k` (inicio) and `2k + 1` (fin).  Per iteration: side length
`int(np.sqrt(celdas * p))` (sqrt of a negative product is NaN and
`int(nan)` raises), a fresh random `lado × lado` grid, `array_split`
into `p` bands, an untimed warm-up worker call on the first band, the
timed dispatch of every band (results discarded, as in the source), and
the elapsed-time record. -/
def escalamientoAux (rng : ℕ → ℕ → ℕ → ℕ) (clock : ℕ → ℚ) (celdas pasos : ℤ) :
    List ℤ → ℕ → Except String (List (ℤ × ℕ × ℚ))
  | [], _ => Except.ok []
  | p :: rest, k =>
    if celdas * p < 0 then Except.error nanMsg
    else
      let lado := Nat.sqrt (celdas * p).toNat
      let grilla := mkRandGrid (rng k) lado lado
      match array_split grilla p with
      | Except.error e => Except.error e
      | Except.ok subgrillas =>
        let _warm := worker (rng k) (subgrillas.getD 0 []) 1
        let inicio := clock (2 * k)
        let _res := subgrillas.map (fun sg => worker (rng k) sg pasos)
        let fin := clock (2 * k + 1)
        match escalamientoAux rng clock celdas pasos rest (k + 1) with
        | Except.error e => Except.error e
        | Except.ok tl => Except.ok ((p, lado, fin - inicio) :: tl)

/-- `escalamiento_debil(celdas_por_proceso, pasos, lista_procesos)`, with
the random stream and the wall clock supplied as parameters.  Each
returned entry records the worker count, the side length printed for it,
and the elapsed time appended to `tiempos`. -/
def escalamiento_debil (rng : ℕ → ℕ → ℕ → ℕ) (clock : ℕ → ℚ) (celdas pasos : ℤ)
    (lista : List ℤ) : Except String (List (ℤ × ℕ × ℚ)) :=
  escalamientoAux rng clock celdas pasos lista 0

/-- One generation of `worker` in an explicit-store rendering of the
numpy heap: every step allocates a fresh array (`np.roll`, `+` and
`astype` all copy) and rebinds `juego.grilla`; nothing ever writes into
an existing array. -/
def allocStep (s : List Grilla × ℕ) : List Grilla × ℕ :=
  (s.1 ++ [step (s.1.getD s.2 [])], s.1.length)

/-- `worker` over the explicit store: start from the array referenced by
`r` and run `range(pasos)` allocation steps. -/
def workerStore (st : List Grilla) (r : ℕ) (pasos : ℤ) : List Grilla × ℕ :=
  allocStep^[pasos.toNat] (st, r)

lemma getD_range_map {α : Type} (f : ℕ → α) (n i : ℕ) (d : α) (h : i < n) :
    ((List.range n).map f).getD i d = f i := by
  rw [List.getD_eq_getElem?_getD, List.getElem?_map, List.getElem?_range h]
  rfl

lemma getD_map_lt {α β : Type} (f : α → β) (l : List α) (i : ℕ) (h : i < l.length)
    (d : α) (d' : β) : (l.map f).getD i d' = f (l.getD i d) := by
  rw [List.getD_eq_getElem?_getD, List.getElem?_map, List.getElem?_eq_getElem h,
    List.getD_eq_getElem?_getD, List.getElem?_eq_getElem h]
  rfl

lemma getD_mem_of_lt {α : Type} (l : List α) (i : ℕ) (h : i < l.length) (d : α) :
    l.getD i d ∈ l := by
  rw [List.getD_eq_getElem?_getD, List.getElem?_eq_getElem h]
  simp only [Option.getD_some]
  exact List.getElem_mem h

lemma zipWith_getD {α β γ : Type} (f : α → β → γ) :
    ∀ (a : List α) (b : List β) (i : ℕ), i < a.length → i < b.length →
      ∀ (d₁ : α) (d₂ : β) (d : γ),
        (List.zipWith f a b).getD i d = f (a.getD i d₁) (b.getD i d₂) := by
  intro a
  induction a with
  | nil => intro b i h1 _; simp at h1
  | cons x xs ih =>
    intro b i h1 h2 d₁ d₂ d
    cases b with
    | nil => simp at h2
    | cons y ys =>
      cases i with
      | zero => simp [List.zipWith]
      | succ n =>
        simp only [List.zipWith, List.getD_cons_succ]
        exact ih ys n (by simpa using h1) (by simpa using h2) d₁ d₂ d

lemma mem_zipWith_exists {α β γ : Type} (f : α → β → γ) :
    ∀ (a : List α) (b : List β) (c : γ), c ∈ List.zipWith f a b →
      ∃ x y, x ∈ a ∧ y ∈ b ∧ c = f x y := by
  intro a
  induction a with
  | nil => intro b c hc; simp at hc
  | cons x xs ih =>
    intro b c hc
    cases b with
    | nil => simp at hc
    | cons y ys =>
      simp only [List.zipWith, List.mem_cons] at hc
      rcases hc with hc | hc
      · exact ⟨x, y, by simp, by simp, hc⟩
      · obtain ⟨x', y', hx, hy, hc⟩ := ih ys c hc
        exact ⟨x', y', by simp [hx], by simp [hy], hc⟩

lemma idx_lt (n : ℕ) (hn : 0 < n) (z : ℤ) : idx n z < n := by
  have hne : (n : ℤ) ≠ 0 := by exact_mod_cast hn.ne'
  have h1 := Int.emod_nonneg z hne
  have h2 := Int.emod_lt_of_pos z (by exact_mod_cast hn : (0 : ℤ) < (n : ℤ))
  unfold idx
  omega

lemma idx_cast (n i : ℕ) (h : i < n) : idx n (i : ℤ) = i := by
  unfold idx
  rw [Int.emod_eq_of_lt (by positivity) (by exact_mod_cast h)]
  omega

lemma rowLen (R C : ℕ) (g : Grilla) (hM : IsMat R C g) (m : ℕ) (hm : m < R) :
    (g.getD m []).length = C :=
  hM.2 _ (getD_mem_of_lt g m (by rw [hM.1]; exact hm) [])

lemma length_rotList {α : Type} (k : ℤ) (d : α) (l : List α) :
    (rotList k d l).length = l.length := by
  simp [rotList]

lemma isMat_np_roll0 (R C : ℕ) (g : Grilla) (k : ℤ) (hM : IsMat R C g) :
    IsMat R C (np_roll0 g k) := by
  constructor
  · rw [np_roll0, length_rotList, hM.1]
  · intro row hrow
    rw [np_roll0, rotList] at hrow
    obtain ⟨m, hm, hrow⟩ := List.mem_map.mp hrow
    have hpos : 0 < g.length := lt_of_le_of_lt (Nat.zero_le _) (List.mem_range.mp hm)
    have hlt : idx g.length ((m : ℤ) - k) < g.length := idx_lt _ hpos _
    exact hrow ▸ hM.2 _ (getD_mem_of_lt g _ hlt [])

lemma isMat_np_roll1 (R C : ℕ) (g : Grilla) (k : ℤ) (hM : IsMat R C g) :
    IsMat R C (np_roll1 g k) := by
  constructor
  · rw [np_roll1, List.length_map, hM.1]
  · intro row hrow
    rw [np_roll1] at hrow
    obtain ⟨r, hr, hrow⟩ := List.mem_map.mp hrow
    rw [← hrow, length_rotList]
    exact hM.2 _ hr

lemma isMat_zipMat (f : ℕ → ℕ → ℕ) (R C : ℕ) (a b : Grilla)
    (ha : IsMat R C a) (hb : IsMat R C b) : IsMat R C (zipMat f a b) := by
  constructor
  · rw [zipMat, List.length_zipWith, ha.1, hb.1, min_self]
  · intro row hrow
    obtain ⟨r, s, hr, hs, hrow⟩ := mem_zipWith_exists _ a b row hrow
    rw [hrow, List.length_zipWith, ha.2 _ hr, hb.2 _ hs, min_self]

lemma isMat_addMat (R C : ℕ) (a b : Grilla) (ha : IsMat R C a) (hb : IsMat R C b) :
    IsMat R C (addMat a b) := isMat_zipMat _ R C a b ha hb

lemma getCell_zipMat (f : ℕ → ℕ → ℕ) (R C : ℕ) (a b : Grilla)
    (ha : IsMat R C a) (hb : IsMat R C b) (i j : ℕ) (hi : i < R) (hj : j < C) :
    getCell (zipMat f a b) i j = f (getCell a i j) (getCell b i j) := by
  unfold getCell zipMat
  rw [zipWith_getD _ a b i (by rw [ha.1]; exact hi) (by rw [hb.1]; exact hi) [] [] []]
  rw [zipWith_getD f _ _ j (by rw [rowLen R C a ha i hi]; exact hj)
    (by rw [rowLen R C b hb i hi]; exact hj) 0 0 0]

lemma getCell_np_roll0 (R C : ℕ) (g : Grilla) (k : ℤ) (i j : ℕ)
    (hM : IsMat R C g) (hi : i < R) :
    getCell (np_roll0 g k) i j = getCell g (idx R ((i : ℤ) - k)) j := by
  unfold getCell np_roll0 rotList
  rw [getD_range_map _ _ i [] (by rw [hM.1]; exact hi), hM.1]

lemma getCell_np_roll1 (R C : ℕ) (g : Grilla) (k : ℤ) (i j : ℕ)
    (hM : IsMat R C g) (hi : i < R) (hj : j < C) :
    getCell (np_roll1 g k) i j = getCell g i (idx C ((j : ℤ) - k)) := by
  unfold getCell np_roll1
  rw [getD_map_lt _ g i (by rw [hM.1]; exact hi) []]
  unfold rotList
  rw [getD_range_map _ _ j 0 (by rw [rowLen R C g hM i hi]; exact hj),
    rowLen R C g hM i hi]

lemma getCell_roll (R C : ℕ) (g : Grilla) (k₀ k₁ : ℤ) (i j : ℕ)
    (hM : IsMat R C g) (hi : i < R) (hj : j < C) :
    getCell (np_roll1 (np_roll0 g k₀) k₁) i j =
      getCell g (idx R ((i : ℤ) - k₀)) (idx C ((j : ℤ) - k₁)) := by
  rw [getCell_np_roll1 R C _ k₁ i j (isMat_np_roll0 R C g k₀ hM) hi hj]
  have hpos : 0 < R := lt_of_le_of_lt (Nat.zero_le _) hi
  rw [getCell_np_roll0 R C g k₀ i _ hM hi]

lemma isMat_contar (R C : ℕ) (g : Grilla) (hM : IsMat R C g) :
    IsMat R C (contar_vecinos g) := by
  have hT : ∀ k₀ k₁ : ℤ, IsMat R C (np_roll1 (np_roll0 g k₀) k₁) := fun k₀ k₁ =>
    isMat_np_roll1 R C _ k₁ (isMat_np_roll0 R C g k₀ hM)
  unfold contar_vecinos
  exact isMat_addMat R C _ _ (isMat_addMat R C _ _ (isMat_addMat R C _ _
    (isMat_addMat R C _ _ (isMat_addMat R C _ _ (isMat_addMat R C _ _
    (isMat_addMat R C _ _ (hT 1 1) (hT 1 0)) (hT 1 (-1))) (hT 0 1))
    (hT 0 (-1))) (hT (-1) 1)) (hT (-1) 0)) (hT (-1) (-1))

lemma getCell_contar (R C : ℕ) (g : Grilla) (i j : ℕ)
    (hM : IsMat R C g) (hi : i < R) (hj : j < C) :
    getCell (contar_vecinos g) i j = vecinosToroidal g R C i j := by
  have hT : ∀ k₀ k₁ : ℤ, IsMat R C (np_roll1 (np_roll0 g k₀) k₁) := fun k₀ k₁ =>
    isMat_np_roll1 R C _ k₁ (isMat_np_roll0 R C g k₀ hM)
  have h1 := isMat_addMat R C _ _ (hT 1 1) (hT 1 0)
  have h2 := isMat_addMat R C _ _ h1 (hT 1 (-1))
  have h3 := isMat_addMat R C _ _ h2 (hT 0 1)
  have h4 := isMat_addMat R C _ _ h3 (hT 0 (-1))
  have h5 := isMat_addMat R C _ _ h4 (hT (-1) 1)
  have h6 := isMat_addMat R C _ _ h5 (hT (-1) 0)
  unfold contar_vecinos
  rw [show addMat = zipMat (· + ·) from rfl] at *
  rw [getCell_zipMat _ R C _ _ h6 (hT (-1) (-1)) i j hi hj,
    getCell_zipMat _ R C _ _ h5 (hT (-1) 0) i j hi hj,
    getCell_zipMat _ R C _ _ h4 (hT (-1) 1) i j hi hj,
    getCell_zipMat _ R C _ _ h3 (hT 0 (-1)) i j hi hj,
    getCell_zipMat _ R C _ _ h2 (hT 0 1) i j hi hj,
    getCell_zipMat _ R C _ _ h1 (hT 1 (-1)) i j hi hj,
    getCell_zipMat _ R C _ _ (hT 1 1) (hT 1 0) i j hi hj,
    getCell_roll R C g 1 1 i j hM hi hj,
    getCell_roll R C g 1 0 i j hM hi hj,
    getCell_roll R C g 1 (-1) i j hM hi hj,
    getCell_roll R C g 0 1 i j hM hi hj,
    getCell_roll R C g 0 (-1) i j hM hi hj,
    getCell_roll R C g (-1) 1 i j hM hi hj,
    getCell_roll R C g (-1) 0 i j hM hi hj,
    getCell_roll R C g (-1) (-1) i j hM hi hj]
  simp only [sub_zero, sub_neg_eq_add, idx_cast R i hi, idx_cast C j hj]
  rfl

lemma isMat_step (R C : ℕ) (g : Grilla) (hM : IsMat R C g) : IsMat R C (step g) :=
  isMat_zipMat _ R C _ _ hM (isMat_contar R C g hM)

lemma cells01_step (g : Grilla) : cells01 (step g) := by
  intro row hrow c hc
  obtain ⟨r, s, _, _, hrow⟩ := mem_zipWith_exists _ _ _ row hrow
  rw [hrow] at hc
  obtain ⟨x, y, _, _, hc⟩ := mem_zipWith_exists _ _ _ c hc
  rw [hc]
  by_cases h : y = 3 ∨ (x = 1 ∧ y = 2) <;> simp [h]

lemma range_map_sum (f : ℕ → ℕ) (n : ℕ) :
    ((List.range n).map f).sum = ∑ i ∈ Finset.range n, f i := by
  induction n with
  | zero => simp
  | succ n ih =>
    rw [List.range_succ, List.map_append, List.sum_append, Finset.sum_range_succ, ih]
    simp

lemma sum_boole_range (m n : ℕ) :
    (∑ i ∈ Finset.range n, if i < m then 1 else 0) = min m n := by
  induction n with
  | zero => simp
  | succ n ih =>
    rw [Finset.sum_range_succ, ih]
    by_cases h : n < m
    · rw [if_pos h]; omega
    · rw [if_neg h]; omega

lemma splitSizes_length (R n : ℕ) : (splitSizes R n).length = n := by
  simp [splitSizes]

lemma splitSizes_sum (R n : ℕ) (hn : 0 < n) : (splitSizes R n).sum = R := by
  unfold splitSizes
  rw [range_map_sum]
  have hsplit : ∀ i : ℕ, (if i < R % n then R / n + 1 else R / n) =
      R / n + (if i < R % n then 1 else 0) := by
    intro i
    by_cases h : i < R % n <;> simp [h]
  simp only [hsplit]
  rw [Finset.sum_add_distrib, Finset.sum_const, sum_boole_range, Finset.card_range,
    smul_eq_mul]
  have h1 : R % n < n := Nat.mod_lt _ hn
  have h2 := Nat.div_add_mod R n
  omega

lemma splitSizes_mem (R n s : ℕ) (hs : s ∈ splitSizes R n) :
    s = R / n ∨ s = R / n + 1 := by
  obtain ⟨i, _, hi⟩ := List.mem_map.mp hs
  by_cases h : i < R % n
  · right; rw [← hi, if_pos h]
  · left; rw [← hi, if_neg h]

lemma takeBands_length : ∀ (ss : List ℕ) (rows : Grilla),
    (takeBands ss rows).length = ss.length := by
  intro ss
  induction ss with
  | nil => intro rows; rfl
  | cons s ss ih => intro rows; simp [takeBands, ih]

lemma takeBands_map_length : ∀ (ss : List ℕ) (rows : Grilla), ss.sum ≤ rows.length →
    (takeBands ss rows).map List.length = ss := by
  intro ss
  induction ss with
  | nil => intro rows _; rfl
  | cons s ss ih =>
    intro rows h
    rw [List.sum_cons] at h
    simp only [takeBands, List.map_cons]
    congr 1
    · rw [List.length_take]; exact min_eq_left (by omega)
    · exact ih _ (by rw [List.length_drop]; omega)

lemma takeBands_flatten : ∀ (ss : List ℕ) (rows : Grilla),
    (takeBands ss rows).flatten = rows.take ss.sum := by
  intro ss
  induction ss with
  | nil => intro rows; simp [takeBands]
  | cons s ss ih =>
    intro rows
    simp only [takeBands, List.flatten_cons, List.sum_cons, ih, List.take_add]

lemma takeBands_rows_mem : ∀ (ss : List ℕ) (rows b : Grilla),
    b ∈ takeBands ss rows → ∀ r ∈ b, r ∈ rows := by
  intro ss
  induction ss with
  | nil => intro rows b hb; simp [takeBands] at hb
  | cons s ss ih =>
    intro rows b hb r hr
    simp only [takeBands, List.mem_cons] at hb
    rcases hb with hb | hb
    · exact List.take_subset s rows (hb ▸ hr)
    · exact List.drop_subset s rows (ih _ _ hb r hr)

/-- Claim C1: for every 0/1 grid, one `step` keeps the dimensions, and a
cell of the result is alive (`= 1`) exactly when its toroidal neighbour
count is 3, or the cell was alive and the count is 2; all other cells
are 0.  The new value is a function of the prior generation only. -/
theorem C1_step_rule (R C : ℕ) (g : Grilla) (hM : IsMat R C g) (_h01 : cells01 g) :
    IsMat R C (step g) ∧
    ∀ i, i < R → ∀ j, j < C →
      getCell (step g) i j =
        (if vecinosToroidal g R C i j = 3 ∨
            (getCell g i j = 1 ∧ vecinosToroidal g R C i j = 2) then 1 else 0) ∧
      (getCell (step g) i j = 1 ↔
        (vecinosToroidal g R C i j = 3 ∨
          (getCell g i j = 1 ∧ vecinosToroidal g R C i j = 2))) := by
  refine ⟨isMat_step R C g hM, fun i hi j hj => ?_⟩
  have hstep : getCell (step g) i j =
      (if vecinosToroidal g R C i j = 3 ∨
          (getCell g i j = 1 ∧ vecinosToroidal g R C i j = 2) then 1 else 0) := by
    unfold step apply_rule
    rw [getCell_zipMat _ R C _ _ hM (isMat_contar R C g hM) i j hi hj,
      getCell_contar R C g i j hM hi hj]
  refine ⟨hstep, ?_⟩
  rw [hstep]
  by_cases h : vecinosToroidal g R C i j = 3 ∨
      (getCell g i j = 1 ∧ vecinosToroidal g R C i j = 2) <;> simp [h]

theorem C1_step_rule_witness :
    IsMat 2 2 (step [[1, 1], [1, 0]]) ∧
    getCell (step [[1, 1], [1, 0]]) 0 0 =
      (if vecinosToroidal [[1, 1], [1, 0]] 2 2 0 0 = 3 ∨
          (getCell [[1, 1], [1, 0]] 0 0 = 1 ∧
            vecinosToroidal [[1, 1], [1, 0]] 2 2 0 0 = 2) then 1 else 0) :=
  ⟨(C1_step_rule 2 2 [[1, 1], [1, 0]] (by unfold IsMat; decide)
      (by unfold cells01; decide)).1,
    ((C1_step_rule 2 2 [[1, 1], [1, 0]] (by unfold IsMat; decide)
      (by unfold cells01; decide)).2 0 (by norm_num) 0 (by norm_num)).1⟩

/-- Claim C2: iterating `step` any number of generations preserves the
row count, the column count, and the 0/1 cell domain. -/
theorem C2_iter_preserves (R C : ℕ) (g : Grilla) (gens : ℕ)
    (hM : IsMat R C g) (h01 : cells01 g) :
    IsMat R C (step^[gens] g) ∧ cells01 (step^[gens] g) := by
  induction gens with
  | zero => exact ⟨hM, h01⟩
  | succ n ih =>
    rw [Function.iterate_succ_apply']
    exact ⟨isMat_step R C _ ih.1, cells01_step _⟩

theorem C2_iter_preserves_witness :
    IsMat 2 2 (step^[3] [[1, 0], [0, 1]]) ∧ cells01 (step^[3] [[1, 0], [0, 1]]) :=
  C2_iter_preserves 2 2 [[1, 0], [0, 1]] 3 (by unfold IsMat; decide)
    (by unfold cells01; decide)

/-- Claim C3: for `1 ≤ n ≤ R`, `array_split` succeeds and yields exactly
`n` bands; their row counts sum to `R` and differ pairwise by at most 1,
every band is non-empty, concatenating them in order gives back the
grid (contiguous, non-overlapping, gapless, top-to-bottom), and every
band keeps the parent's column count. -/
theorem C3_split_balanced (R C : ℕ) (g : Grilla) (n : ℤ)
    (hn1 : 1 ≤ n) (hn2 : n ≤ (R : ℤ)) (hM : IsMat R C g) :
    ∃ bands, array_split g n = Except.ok bands ∧
      bands.length = n.toNat ∧
      (bands.map List.length).sum = R ∧
      (∀ s₁ ∈ bands.map List.length, ∀ s₂ ∈ bands.map List.length, s₁ ≤ s₂ + 1) ∧
      (∀ b ∈ bands, 0 < b.length) ∧
      bands.flatten = g ∧
      (∀ b ∈ bands, ∀ row ∈ b, row.length = C) := by
  have hpos : ¬ (n ≤ 0) := by omega
  have hnt : 0 < n.toNat := by omega
  have hsum : (splitSizes g.length n.toNat).sum = g.length := splitSizes_sum _ _ hnt
  have hml := takeBands_map_length (splitSizes g.length n.toNat) g (le_of_eq hsum)
  refine ⟨takeBands (splitSizes g.length n.toNat) g, ?_, ?_, ?_, ?_, ?_, ?_, ?_⟩
  · simp [array_split, hpos]
  · rw [takeBands_length, splitSizes_length]
  · rw [hml, hsum, hM.1]
  · intro s₁ h₁ s₂ h₂
    rw [hml] at h₁ h₂
    rcases splitSizes_mem _ _ _ h₁ with h | h <;>
      rcases splitSizes_mem _ _ _ h₂ with h' | h' <;> omega
  · intro b hb
    have hmem : b.length ∈ splitSizes g.length n.toNat := by
      rw [← hml]
      exact List.mem_map.mpr ⟨b, hb, rfl⟩
    have hdiv : 1 ≤ g.length / n.toNat := by
      rw [Nat.one_le_div_iff hnt, hM.1]
      omega
    rcases splitSizes_mem _ _ _ hmem with h | h <;> omega
  · rw [takeBands_flatten, hsum, List.take_length]
  · intro b hb row hrow
    exact hM.2 row (takeBands_rows_mem _ _ _ hb row hrow)

theorem C3_split_balanced_witness :
    ∃ bands, array_split [[0], [1], [2]] 2 = Except.ok bands ∧
      bands.length = (2 : ℤ).toNat ∧
      (bands.map List.length).sum = 3 ∧
      (∀ s₁ ∈ bands.map List.length, ∀ s₂ ∈ bands.map List.length, s₁ ≤ s₂ + 1) ∧
      (∀ b ∈ bands, 0 < b.length) ∧
      bands.flatten = [[0], [1], [2]] ∧
      (∀ b ∈ bands, ∀ row ∈ b, row.length = 1) :=
  C3_split_balanced 3 1 [[0], [1], [2]] 2 (by norm_num) (by norm_num)
    (by unfold IsMat; decide)

/-- Claim C4: for every band count the code accepts (`n ≥ 1`),
concatenating the bands of `array_split` in output order reproduces the
original grid exactly. -/
theorem C4_split_reassembly (g : Grilla) (n : ℤ) (hn : 1 ≤ n) :
    ∃ bands, array_split g n = Except.ok bands ∧ bands.flatten = g := by
  have hpos : ¬ (n ≤ 0) := by omega
  refine ⟨takeBands (splitSizes g.length n.toNat) g, by simp [array_split, hpos], ?_⟩
  rw [takeBands_flatten, splitSizes_sum _ _ (by omega), List.take_length]

theorem C4_split_reassembly_witness :
    ∃ bands, array_split [[1, 2], [3, 4], [5, 6]] 2 = Except.ok bands ∧
      bands.flatten = [[1, 2], [3, 4], [5, 6]] :=
  C4_split_reassembly [[1, 2], [3, 4], [5, 6]] 2 (by norm_num)

lemma sqrt_four : Nat.sqrt 4 = 2 := by
  have h1 : 2 ≤ Nat.sqrt 4 := Nat.le_sqrt.mpr (by norm_num)
  have h2 : Nat.sqrt 4 < 3 := Nat.sqrt_lt.mpr (by norm_num)
  omega

lemma sqrt_eight : Nat.sqrt 8 = 2 := by
  have h1 : 2 ≤ Nat.sqrt 8 := Nat.le_sqrt.mpr (by norm_num)
  have h2 : Nat.sqrt 8 < 3 := Nat.sqrt_lt.mpr (by norm_num)
  omega

lemma sqrt_sixteen : Nat.sqrt 16 = 4 := by
  have h1 : 4 ≤ Nat.sqrt 16 := Nat.le_sqrt.mpr (by norm_num)
  have h2 : Nat.sqrt 16 < 5 := Nat.sqrt_lt.mpr (by norm_num)
  omega

lemma escalamientoAux_map (rng : ℕ → ℕ → ℕ → ℕ) (clock : ℕ → ℚ) (celdas pasos : ℤ) :
    ∀ (lista : List ℤ) (k : ℕ) (res : List (ℤ × ℕ × ℚ)),
      escalamientoAux rng clock celdas pasos lista k = Except.ok res →
      res.map (fun r => (r.1, r.2.1)) =
        lista.map (fun p => (p, Nat.sqrt (celdas * p).toNat)) := by
  intro lista
  induction lista with
  | nil =>
    intro k res h
    simp only [escalamientoAux, Except.ok.injEq] at h
    rw [← h]
    rfl
  | cons p rest ih =>
    intro k res h
    simp only [escalamientoAux] at h
    by_cases hnn : celdas * p < 0
    · rw [if_pos hnn] at h
      exact absurd h (by simp)
    · rw [if_neg hnn] at h
      cases harr : array_split (mkRandGrid (rng k) (Nat.sqrt (celdas * p).toNat)
          (Nat.sqrt (celdas * p).toNat)) p with
      | error e => rw [harr] at h; simp at h
      | ok subgrillas =>
        rw [harr] at h
        cases hrec : escalamientoAux rng clock celdas pasos rest (k + 1) with
        | error e => rw [hrec] at h; simp at h
        | ok tl =>
          rw [hrec] at h
          simp only [Except.ok.injEq] at h
          rw [← h, List.map_cons, List.map_cons, ih (k + 1) tl hrec]

lemma escalamiento_concrete (rng : ℕ → ℕ → ℕ → ℕ) (clock : ℕ → ℚ) :
    escalamiento_debil rng clock 4 0 [1, 2, 4] =
      Except.ok [(1, 2, clock 1 - clock 0), (2, 2, clock 3 - clock 2),
        (4, 4, clock 5 - clock 4)] := by
  norm_num [escalamiento_debil, escalamientoAux, array_split]
  exact ⟨sqrt_four, sqrt_eight, sqrt_sixteen⟩

/-- Claim C5: every recorded sample carries the side length
`floor(sqrt(cells_per_worker * p))` for its worker count `p`, and the
run with `cells_per_worker = 4`, `generations = 0`,
`worker_counts = [1, 2, 4]` records worker counts exactly `[1, 2, 4]` in
order with side lengths `2, 2, 4` and non-negative elapsed times
(float square root is modelled by the exact integer square root). -/
theorem C5_harness_sides (rng : ℕ → ℕ → ℕ → ℕ) (clock : ℕ → ℚ)
    (hMon : Monotone clock) :
    (∀ (celdas pasos : ℤ) (lista : List ℤ) (res : List (ℤ × ℕ × ℚ)),
        escalamiento_debil rng clock celdas pasos lista = Except.ok res →
        res.map (fun r => (r.1, r.2.1)) =
          lista.map (fun p => (p, Nat.sqrt (celdas * p).toNat))) ∧
    ∃ e₁ e₂ e₃, escalamiento_debil rng clock 4 0 [1, 2, 4] =
        Except.ok [(1, 2, e₁), (2, 2, e₂), (4, 4, e₃)] ∧
      0 ≤ e₁ ∧ 0 ≤ e₂ ∧ 0 ≤ e₃ := by
  constructor
  · intro celdas pasos lista res h
    exact escalamientoAux_map rng clock celdas pasos lista 0 res h
  · exact ⟨clock 1 - clock 0, clock 3 - clock 2, clock 5 - clock 4,
      escalamiento_concrete rng clock,
      sub_nonneg.mpr (hMon (by norm_num)), sub_nonneg.mpr (hMon (by norm_num)),
      sub_nonneg.mpr (hMon (by norm_num))⟩

theorem C5_harness_sides_witness :
    ∃ e₁ e₂ e₃, escalamiento_debil (fun _ _ _ => 0) (fun _ => (0 : ℚ)) 4 0 [1, 2, 4] =
        Except.ok [(1, 2, e₁), (2, 2, e₂), (4, 4, e₃)] ∧
      0 ≤ e₁ ∧ 0 ≤ e₂ ∧ 0 ≤ e₃ :=
  (C5_harness_sides (fun _ _ _ => 0) (fun _ => (0 : ℚ)) monotone_const).2

/-- Claim C6 counterexample: splitting a 1-row grid into 2 bands does
not fail; `np.array_split` happily returns an empty second band. -/
theorem C6_counterexample : array_split [[0]] 2 = Except.ok [[[0]], []] := rfl

/-- Claim C6 amended: `array_split` fails exactly when `n ≤ 0`; for
`n > R` it succeeds anyway, but then some band is empty (so the
"every band has at least one row" guarantee does not hold). -/
theorem C6_split_error_iff (g : Grilla) (n : ℤ) :
    (array_split g n = Except.error splitErrMsg ↔ n ≤ 0) ∧
    ((g.length : ℤ) < n →
      ∃ bands, array_split g n = Except.ok bands ∧ ∃ b ∈ bands, b.length = 0) := by
  constructor
  · constructor
    · intro h
      by_contra hn
      rw [array_split, if_neg hn] at h
      simp at h
    · intro hn
      rw [array_split, if_pos hn]
  · intro hlt
    have hn : ¬ (n ≤ 0) := by omega
    refine ⟨takeBands (splitSizes g.length n.toNat) g, by rw [array_split, if_neg hn], ?_⟩
    have hR : g.length < n.toNat := by omega
    have hdiv : g.length / n.toNat = 0 := Nat.div_eq_of_lt hR
    have hmod : g.length % n.toNat = g.length := Nat.mod_eq_of_lt hR
    have hml := takeBands_map_length (splitSizes g.length n.toNat) g
      (le_of_eq (splitSizes_sum _ _ (by omega)))
    have h0 : (0 : ℕ) ∈ splitSizes g.length n.toNat := by
      unfold splitSizes
      refine List.mem_map.mpr ⟨n.toNat - 1, List.mem_range.mpr (by omega), ?_⟩
      rw [if_neg (by omega), hdiv]
    rw [← hml] at h0
    obtain ⟨b, hb, hlen⟩ := List.mem_map.mp h0
    exact ⟨b, hb, hlen⟩

theorem C6_split_error_iff_witness :
    array_split ([[0]] : Grilla) 2 ≠ Except.error splitErrMsg ∧
    ∃ bands, array_split ([[0]] : Grilla) 2 = Except.ok bands ∧
      ∃ b ∈ bands, b.length = 0 := by
  have h := C6_split_error_iff [[0]] 2
  exact ⟨fun hc => by have h2 := h.1.mp hc; omega, h.2 (by decide)⟩

/-- Claim C7 counterexample: creating a grid with `rows = 0` does not
fail; `np.random.randint(2, size=(0, 3))` returns an empty array. -/
theorem C7_counterexample :
    juegoInit (fun _ _ => 0) 0 3 5 1 = Except.ok ⟨0, 3, 5, 1, []⟩ := rfl

lemma isMat_mkRandGrid (rng : ℕ → ℕ → ℕ) (r c : ℕ) :
    IsMat r c (mkRandGrid rng r c) := by
  constructor
  · simp [mkRandGrid]
  · intro row hrow
    obtain ⟨i, _, hrow⟩ := List.mem_map.mp hrow
    rw [← hrow]
    simp

lemma cells01_mkRandGrid (rng : ℕ → ℕ → ℕ) (r c : ℕ) :
    cells01 (mkRandGrid rng r c) := by
  intro row hrow v hv
  obtain ⟨i, _, hrow⟩ := List.mem_map.mp hrow
  rw [← hrow] at hv
  obtain ⟨j, _, hj⟩ := List.mem_map.mp hv
  rw [← hj]
  exact Nat.mod_two_eq_zero_or_one _

/-- Claim C7 amended: grid creation fills the cells with 0/1 draws and
fails exactly when a dimension is negative; every non-negative pair of
dimensions (zero included, giving an empty grid) succeeds. -/
theorem C7_create (rng : ℕ → ℕ → ℕ) (filas columnas pasos procesos : ℤ) :
    (juegoInit rng filas columnas pasos procesos = Except.error negDimMsg ↔
      (filas < 0 ∨ columnas < 0)) ∧
    (0 ≤ filas → 0 ≤ columnas →
      ∃ j, juegoInit rng filas columnas pasos procesos = Except.ok j ∧
        IsMat filas.toNat columnas.toNat j.grilla ∧ cells01 j.grilla) := by
  constructor
  · unfold juegoInit
    by_cases hcond : filas < 0 ∨ columnas < 0
    · rw [if_pos hcond]
      simp [hcond]
    · rw [if_neg hcond]
      simp [hcond]
  · intro hf hc
    refine ⟨_, by rw [juegoInit, if_neg (by omega)], ?_, ?_⟩
    · exact isMat_mkRandGrid rng filas.toNat columnas.toNat
    · exact cells01_mkRandGrid rng filas.toNat columnas.toNat

theorem C7_create_witness :
    ∃ j, juegoInit (fun _ _ => 0) 2 3 5 1 = Except.ok j ∧
      IsMat 2 3 j.grilla ∧ cells01 j.grilla :=
  (C7_create (fun _ _ => 0) 2 3 5 1).2 (by norm_num) (by norm_num)

/-- Claim C8 counterexample: the harness accepts `cells_per_worker = 0`
and `generations = -1` without any error; nothing in the code validates
the configuration. -/
theorem C8_counterexample :
    ∃ res, escalamiento_debil (fun _ _ _ => 0) (fun _ => (0 : ℚ)) 0 (-1) [1] =
      Except.ok res := ⟨_, rfl⟩

lemma escalamientoAux_ok_iff (rng : ℕ → ℕ → ℕ → ℕ) (clock : ℕ → ℚ)
    (celdas pasos : ℤ) (hc : 0 ≤ celdas) :
    ∀ (lista : List ℤ) (k : ℕ),
      (∃ res, escalamientoAux rng clock celdas pasos lista k = Except.ok res) ↔
        ∀ p ∈ lista, 0 < p := by
  intro lista
  induction lista with
  | nil =>
    intro k
    simp [escalamientoAux]
  | cons p rest ih =>
    intro k
    constructor
    · rintro ⟨res, h⟩
      simp only [escalamientoAux] at h
      by_cases hnn : celdas * p < 0
      · rw [if_pos hnn] at h
        simp at h
      · rw [if_neg hnn] at h
        cases harr : array_split (mkRandGrid (rng k) (Nat.sqrt (celdas * p).toNat)
            (Nat.sqrt (celdas * p).toNat)) p with
        | error e => rw [harr] at h; simp at h
        | ok subgrillas =>
          rw [harr] at h
          have hp : 0 < p := by
            by_contra hp
            rw [array_split, if_pos (by omega)] at harr
            simp at harr
          intro q hq
          rcases List.mem_cons.mp hq with hq | hq
          · rw [hq]; exact hp
          · cases hrec : escalamientoAux rng clock celdas pasos rest (k + 1) with
            | error e => rw [hrec] at h; simp at h
            | ok tl => exact ((ih (k + 1)).mp ⟨tl, hrec⟩) q hq
    · intro hall
      have hp : 0 < p := hall p (by simp)
      obtain ⟨tl, htl⟩ := (ih (k + 1)).mpr (fun q hq => hall q (by simp [hq]))
      have hnn : ¬ (celdas * p < 0) := by
        have := mul_nonneg hc hp.le
        omega
      refine ⟨(p, Nat.sqrt (celdas * p).toNat,
        clock (2 * k + 1) - clock (2 * k)) :: tl, ?_⟩
      simp only [escalamientoAux]
      rw [if_neg hnn, array_split, if_neg (by omega), htl]

/-- Claim C8 amended: the harness performs no explicit validation.  With
a non-negative `cells_per_worker` it fails exactly when some configured
worker count is `≤ 0` (numpy's `array_split` rejects it); a zero
`cells_per_worker` and negative `generations` are accepted (negative
generations simply run zero steps). -/
theorem C8_config (rng : ℕ → ℕ → ℕ → ℕ) (clock : ℕ → ℚ) (celdas pasos : ℤ)
    (lista : List ℤ) (hc : 0 ≤ celdas) :
    (∃ res, escalamiento_debil rng clock celdas pasos lista = Except.ok res) ↔
      ∀ p ∈ lista, 0 < p :=
  escalamientoAux_ok_iff rng clock celdas pasos hc lista 0

theorem C8_config_witness :
    (∃ res, escalamiento_debil (fun _ _ _ => 0) (fun _ => (0 : ℚ)) 3 2 [1, 0] =
      Except.ok res) ↔ ∀ p ∈ ([1, 0] : List ℤ), 0 < p :=
  C8_config (fun _ _ _ => 0) (fun _ => (0 : ℚ)) 3 2 [1, 0] (by norm_num)

/-- Claim C9: the worker is deterministic and band-local: it ignores the
random stream used by the `JuegoDeLaVida` constructor, two equal bands
(cut from possibly different full grids, so adjacent bands are never
consulted) give equal results, and the result is exactly
`range(pasos)`-fold iteration of the sub-grid-local toroidal step. -/
theorem C9_worker_iso (rng₁ rng₂ : ℕ → ℕ → ℕ) (g₁ g₂ : Grilla) (p : ℤ) (k : ℕ)
    (pasos : ℤ) (bands₁ bands₂ : List Grilla)
    (_h₁ : array_split g₁ p = Except.ok bands₁)
    (_h₂ : array_split g₂ p = Except.ok bands₂)
    (hband : bands₁.getD k [] = bands₂.getD k []) :
    worker rng₁ (bands₁.getD k []) pasos = worker rng₂ (bands₂.getD k []) pasos ∧
    worker rng₁ (bands₁.getD k []) pasos = step^[pasos.toNat] (bands₁.getD k []) := by
  constructor
  · rw [hband]
    rfl
  · rfl


theorem C9_worker_iso_witness :
    worker (fun _ _ => 0) (([[[1]], [[0]]] : List Grilla).getD 0 []) 1 =
      worker (fun _ _ => 1) (([[[1]], [[1]]] : List Grilla).getD 0 []) 1 ∧
    worker (fun _ _ => 0) (([[[1]], [[0]]] : List Grilla).getD 0 []) 1 =
      step^[(1 : ℤ).toNat] (([[[1]], [[0]]] : List Grilla).getD 0 []) :=
  C9_worker_iso (fun _ _ => 0) (fun _ _ => 1) [[1], [0]] [[1], [1]] 2 0 1
    [[[1]], [[0]]] [[[1]], [[1]]] rfl rfl rfl

lemma getD_range_self {α : Type} : ∀ (l : List α) (d : α),
    (List.range l.length).map (fun (i : ℕ) => l.getD i d) = l := by
  intro l
  induction l with
  | nil => intro d; rfl
  | cons x xs ih =>
    intro d
    rw [List.length_cons, List.range_succ_eq_map, List.map_cons, List.map_map]
    congr 1
    rw [show ((fun (i : ℕ) => (x :: xs).getD i d) ∘ Nat.succ) =
        (fun (i : ℕ) => xs.getD i d) from funext (fun i => List.getD_cons_succ), ih]

lemma workerStore_extend (st : List Grilla) (r : ℕ) (pasos : ℤ) :
    ∃ t, (workerStore st r pasos).1 = st ++ t := by
  unfold workerStore
  generalize pasos.toNat = n
  induction n with
  | zero => exact ⟨[], by simp⟩
  | succ n ih =>
    obtain ⟨t, ht⟩ := ih
    refine ⟨t ++ [step ((allocStep^[n] (st, r)).1.getD (allocStep^[n] (st, r)).2 [])], ?_⟩
    rw [Function.iterate_succ_apply', ← List.append_assoc, ← ht]
    rfl

/-- Claim C10: the warm-up worker call never mutates the partition's
sub-grids: in the explicit-store rendering (every step allocates a fresh
grid, matching numpy's copying `roll`/`+`/`astype`), running the worker
on band 0 leaves every stored band unchanged, so the timed dispatch
reads exactly the sub-grids the partition produced. -/
theorem C10_warmup_frame (g : Grilla) (p : ℤ) (bands : List Grilla)
    (_h : array_split g p = Except.ok bands) :
    (∀ i, i < bands.length →
      (workerStore bands 0 1).1.getD i [] = bands.getD i []) ∧
    (List.range bands.length).map
      (fun (i : ℕ) => (workerStore bands 0 1).1.getD i []) = bands := by
  obtain ⟨t, ht⟩ := workerStore_extend bands 0 1
  have hpt : ∀ i, i < bands.length →
      (workerStore bands 0 1).1.getD i [] = bands.getD i [] := by
    intro i hi
    rw [ht, List.getD_eq_getElem?_getD, List.getElem?_append_left hi,
      ← List.getD_eq_getElem?_getD]
  refine ⟨hpt, ?_⟩
  rw [List.map_congr_left (fun i hi => hpt i (List.mem_range.mp hi))]
  exact getD_range_self bands []

theorem C10_warmup_frame_witness :
    (workerStore [[[0]], [[1]]] 0 1).1.getD 1 [] =
      ([[[0]], [[1]]] : List Grilla).getD 1 [] :=
  (C10_warmup_frame [[0], [1]] 2 [[[0]], [[1]]] rfl).1 1 (by decide)

end Correciones
